import Mathlib

/-!
# Verification of the 3Poker rules engine (`src/services/gameLogic.ts`)

Shallow embedding of the deck builder, hand valuator, round settler and bot
policy, together with proofs of the specified properties.

Modelling conventions:
* TypeScript `number` card values are modelled as `Nat` (the data-model
  invariant makes `value` a lookup in the fixed non-negative `RANK_VALUES`
  table); player ids and array indices are modelled as `Int` (a caller index
  may be negative).
* Fallible operations (JS `TypeError` on reading a property of `undefined`)
  are modelled with `Except String`.
* `Math.random`-driven choices are modelled by an injected draw function
  `rand : Nat → Nat`; at loop index `i` the drawn index is `rand i % (i+1)`,
  which ranges over `[0, i]` exactly as `Math.floor(Math.random()*(i+1))`.
-/

/-- A card: `id`, `suit`, `rank`, and the table-derived `value`.
(`CardData` in `types.ts`.) -/
structure CardData where
  id : String
  suit : String
  rank : String
  value : Nat
deriving DecidableEq, Repr

/-- A player: identity and an ordered hand of cards. -/
structure Player where
  id : Int
  hand : List CardData
deriving DecidableEq, Repr

/-- One entry of the round settlement result. -/
structure RoundScore where
  playerId : Int
  roundScore : Nat
deriving DecidableEq, Repr

/-- The bot's decision: toss a pair, show, or discard one card. -/
inductive BotAction where
  | TOSS (cardIds : List String)
  | SHOW
  | DISCARD (cardIds : List String)
deriving DecidableEq, Repr

/-- `calculateHandValue` from the source: with no joker, sum the card values;
with a joker, a card whose rank AND suit both match the joker contributes 0. -/
def calculateHandValue (hand : List CardData) (joker : Option CardData) : Nat :=
  match joker with
  | none => hand.foldl (fun sum card => sum + card.value) 0
  | some j =>
    hand.foldl (fun sum card =>
      if card.rank = j.rank ∧ card.suit = j.suit then sum + 0
      else sum + card.value) 0

/-- JS array indexing `players[i]`: `undefined` (here `none`) when out of
range, including every negative index. -/
def jsIndex (l : List Player) (i : Int) : Option Player :=
  if 0 ≤ i then l[i.toNat]? else none

/-- `Math.min(...xs)` over a non-empty spread; the `[]` case (JS `Infinity`)
is unreachable at the call site below. -/
def mathMin (l : List Nat) : Nat :=
  match l with
  | [] => 0
  | x :: xs => xs.foldl min x

/-- `getRoundScores` from the source.  With no players, `find` never invokes
its callback and the final `map` is empty, so the empty list is returned;
otherwise the `find` callback evaluates `players[callerIndex].id`, which
throws when the index is out of range. -/
def getRoundScores (players : List Player) (callerIndex : Int)
    (joker : Option CardData) : Except String (List RoundScore) :=
  let handValues := players.map fun p => (p.id, calculateHandValue p.hand joker)
  match players with
  | [] => Except.ok []
  | _ :: _ =>
    match jsIndex players callerIndex with
    | none => Except.error "TypeError: cannot read properties of undefined"
    | some caller =>
      let callerValue := ((handValues.find? fun h => h.1 = caller.id).map
        Prod.snd).getD 0
      let lowestValue := mathMin (handValues.map Prod.snd)
      let winnersCount := (handValues.filter fun h => h.2 = lowestValue).length
      let callerIsLowest := callerValue = lowestValue
      Except.ok (players.map fun p =>
        let handVal := calculateHandValue p.hand joker
        let roundScore :=
          if p.id = caller.id then
            if callerIsLowest ∧ winnersCount = 1 then 0
            else if callerIsLowest ∧ winnersCount > 1 then 25
            else 50
          else handVal
        { playerId := p.id, roundScore := roundScore })

/-- One step of building `rankCounts`: append the card to its rank's group,
creating the group (at the end, first-seen order) when absent. -/
def insertCard (acc : List (String × List CardData)) (c : CardData) :
    List (String × List CardData) :=
  if acc.any fun e => e.1 = c.rank then
    acc.map fun e => if e.1 = c.rank then (e.1, e.2 ++ [c]) else e
  else acc ++ [(c.rank, [c])]

/-- The `rankCounts` record of `decideBotAction`, as an association list.
Modelled from the spec: the `Rank` enumeration lives in `constants.ts`, which
is not under `src/`; the JS `for..in` key order over the record is modelled as
first-seen insertion order, the spec's "first-seen rank ordering". -/
def rankCounts (hand : List CardData) : List (String × List CardData) :=
  hand.foldl insertCard []

/-- `card.rank === joker?.rank && card.suit === joker?.suit`. -/
def isJoker (joker : Option CardData) (c : CardData) : Bool :=
  match joker with
  | none => false
  | some j => decide (c.rank = j.rank ∧ c.suit = j.suit)

/-- The toss branch of `decideBotAction`: the first rank group (in first-seen
order) with at least two cards yields a `TOSS` of its first two card ids. -/
def tossAction (hand : List CardData) : Option BotAction :=
  match (rankCounts hand).find? fun e => 2 ≤ e.2.length with
  | some e =>
    match e.2 with
    | c1 :: c2 :: _ => some (BotAction.TOSS [c1.id, c2.id])
    | _ => none   -- unreachable: the found group has at least two cards
  | none => none

/-- `decideBotAction` from the source: toss a first-seen pair unless a toss
was already used this turn; otherwise show at value ≤ 5; otherwise discard the
first card attaining the maximal effective value (strict `>` against a running
maximum started at `-1`, with `highestCard` started at `hand[0]`, whose `id`
read throws on an empty hand). -/
def decideBotAction (player : Player) (joker : Option CardData)
    (tossedThisTurn : Bool) : Except String BotAction :=
  let hand := player.hand
  let currentScore := calculateHandValue hand joker
  match (if tossedThisTurn then none else tossAction hand) with
  | some a => Except.ok a
  | none =>
    if currentScore ≤ 5 then Except.ok BotAction.SHOW
    else
      match hand with
      | [] => Except.error "TypeError: cannot read properties of undefined"
      | h0 :: _ =>
        let best := hand.foldl (fun st c =>
          let val : Int := if isJoker joker c then 0 else (c.value : Int)
          if val > st.2 then (c, val) else st) (h0, (-1 : Int))
        Except.ok (BotAction.DISCARD [best.1.id])

/-- The card id template string `card-${idCounter}-${rank}-${suit}`. -/
def cardId (idCounter : Nat) (rank suit : String) : String :=
  "card-" ++ toString idCounter ++ "-" ++ rank ++ "-" ++ suit

/-- The cards of one suit's inner loop of `createDeck`, with the running
`idCounter` threaded as `n`. -/
def buildRow (rankValues : String → Nat) (suit : String) :
    List String → Nat → List CardData
  | [], _ => []
  | r :: rs, n =>
    { id := cardId n r suit, suit := suit, rank := r, value := rankValues r } ::
      buildRow rankValues suit rs (n + 1)

/-- The outer loop of `createDeck` over suits; each row advances the counter
by the number of ranks. -/
def buildRows (ranks : List String) (rankValues : String → Nat) :
    List String → Nat → List CardData
  | [], _ => []
  | s :: ss, n =>
    buildRow rankValues s ranks n ++
      buildRows ranks rankValues ss (n + ranks.length)

/-- The unshuffled deck built by `createDeck`'s nested loops.
Modelled from the spec: `SUITS`, `RANKS` and `RANK_VALUES` live in
`constants.ts`, which is not under `src/`; per the spec they are fixed finite
sets and a fixed rank→value table, taken here as parameters. -/
def createDeckCards (suits ranks : List String)
    (rankValues : String → Nat) : List CardData :=
  buildRows ranks rankValues suits 0

/-- Swap the elements of `l` at positions `i` and `j`
(`[a[i], a[j]] = [a[j], a[i]]`); at the call site below both indices are
always in range, so the fallback branch never fires. -/
def listSwap (l : List CardData) (i j : Nat) : List CardData :=
  match l[i]?, l[j]? with
  | some x, some y => (l.set i y).set j x
  | _, _ => l

/-- The Fisher–Yates loop of `shuffleDeck`: `n` counts the remaining loop
indices, so the swap at `l, i+1` handles loop index `i+1` with drawn index
`rand (i+1) % (i+2)`, and the loop stops before index 0. -/
def fyLoop (rand : Nat → Nat) : List CardData → Nat → List CardData
  | l, 0 => l
  | l, i + 1 => fyLoop rand (listSwap l (i + 1) (rand (i + 1) % (i + 2))) (i)

/-- `shuffleDeck` from the source: copy the deck and run Fisher–Yates from
index `length - 1` down to 1 with the injected random draws. -/
def shuffleDeck (rand : Nat → Nat) (deck : List CardData) : List CardData :=
  fyLoop rand deck (deck.length - 1)

/-- `createDeck` from the source: build the full deck, then shuffle it. -/
def createDeck (suits ranks : List String) (rankValues : String → Nat)
    (rand : Nat → Nat) : List CardData :=
  shuffleDeck rand (createDeckCards suits ranks rankValues)

/-- Effective value of a card for the bot's discard rule: 0 for the joker
card, the table value otherwise (claim-side notion, §4.4 of the spec). -/
def effVal (joker : Option CardData) (c : CardData) : Nat :=
  if isJoker joker c then 0 else c.value

/-- The hand's ranks in first-seen order (claim-side notion, §4.4). -/
def firstSeenRanks (hand : List CardData) : List String :=
  (hand.map fun c => c.rank).foldl
    (fun acc r => if r ∈ acc then acc else acc ++ [r]) []

/-- The caller's case score, exactly the expression computed inside
`getRoundScores` for the player whose id matches the caller's. -/
def settleCase (players : List Player) (caller : Player)
    (joker : Option CardData) : Nat :=
  let handValues := players.map fun p => (p.id, calculateHandValue p.hand joker)
  let callerValue := ((handValues.find? fun h => h.1 = caller.id).map
    Prod.snd).getD 0
  let lowestValue := mathMin (handValues.map Prod.snd)
  let winnersCount := (handValues.filter fun h => h.2 = lowestValue).length
  let callerIsLowest := callerValue = lowestValue
  if callerIsLowest ∧ winnersCount = 1 then 0
  else if callerIsLowest ∧ winnersCount > 1 then 25
  else 50

/-- The hand values of all players (claim-side notion, §4.3 step 1). -/
def handVals (players : List Player) (joker : Option CardData) : List Nat :=
  players.map fun p => calculateHandValue p.hand joker

/-- The caller's score exactly as the specification's §4.3 states it: 0 on a
unique lowest call, 25 on a tied lowest call, 50 otherwise, with the caller's
value read off positionally at `callerIndex`. -/
def specCallerScore (players : List Player) (callerIndex : Nat)
    (joker : Option CardData) : Nat :=
  let vals := handVals players joker
  let lowest := mathMin vals
  let winners := vals.countP fun v => v = lowest
  let callerValue := vals.getD callerIndex 0
  if callerValue = lowest ∧ winners = 1 then 0
  else if callerValue = lowest ∧ 1 < winners then 25
  else 50

/-- The card the discard fold keeps: scanning left to right, the current best
is replaced only by a strictly larger effective value. -/
def firstMaxFrom (joker : Option CardData) (b : CardData) :
    List CardData → CardData
  | [] => b
  | c :: t =>
    if effVal joker b < effVal joker c then firstMaxFrom joker c t
    else firstMaxFrom joker b t

/-- The maximum effective value in the hand (claim-side notion, §4.4). -/
def maxEffVal (joker : Option CardData) (hand : List CardData) : Nat :=
  (hand.map (effVal joker)).foldl max 0


/-- The decimal digit string of a natural number: the characters that
`toString`/`Nat.repr` produce for the id counter interpolation. -/
def natStrData (n : Nat) : List Char :=
  if _h : n < 10 then [Nat.digitChar n]
  else natStrData (n / 10) ++ [Nat.digitChar (n % 10)]
decreasing_by exact Nat.div_lt_self (by omega) (by omega)

/-- Reads a digit string back as a number (proof-side inverse of
`natStrData`). -/
def digitsVal (l : List Char) : Nat :=
  l.foldl (fun a c => a * 10 + (c.toNat - 48)) 0


/-! ## General lemmas about the embedded operations -/

theorem foldl_add_eq_sum (f : CardData → Nat) :
    ∀ (l : List CardData) (a : Nat),
      l.foldl (fun s c => s + f c) a = a + (l.map f).sum := by
  intro l
  induction l with
  | nil => intro a; simp
  | cons c t ih =>
    intro a
    simp only [List.foldl_cons, List.map_cons, List.sum_cons, ih]
    omega

theorem set_set_perm :
    ∀ (l : List CardData) (i j : Nat) (x y : CardData),
      l[i]? = some x → l[j]? = some y → List.Perm ((l.set i y).set j x) l := by
  -- moving the element found at position `m` to the head is a permutation
  have swapHead : ∀ (t : List CardData) (m : Nat) (a y : CardData),
      t[m]? = some y → List.Perm (y :: t.set m a) (a :: t) := by
    intro t
    induction t with
    | nil => intro m a y h; simp at h
    | cons b t' ih =>
      intro m a y h
      cases m with
      | zero =>
        simp only [List.getElem?_cons_zero, Option.some.injEq] at h
        subst h
        simpa using List.Perm.swap a b t'
      | succ m' =>
        simp only [List.getElem?_cons_succ] at h
        have step := ih m' a y h
        exact ((List.Perm.swap b y _).trans (List.Perm.cons b step)).trans
          (List.Perm.swap a b t')
  intro l
  induction l with
  | nil => intro i j x y h; simp at h
  | cons a t ih =>
    intro i j x y hx hy
    cases i with
    | zero =>
      simp only [List.getElem?_cons_zero, Option.some.injEq] at hx
      subst hx
      cases j with
      | zero =>
        simp only [List.getElem?_cons_zero, Option.some.injEq] at hy
        subst hy
        simp
      | succ m =>
        simp only [List.getElem?_cons_succ] at hy
        simpa using swapHead t m a y hy
    | succ k =>
      simp only [List.getElem?_cons_succ] at hx
      cases j with
      | zero =>
        simp only [List.getElem?_cons_zero, Option.some.injEq] at hy
        subst hy
        simpa using swapHead t k a x hx
      | succ m =>
        simp only [List.getElem?_cons_succ] at hy
        simpa using List.Perm.cons a (ih k m x y hx hy)

theorem listSwap_perm (l : List CardData) (i j : Nat) :
    List.Perm (listSwap l i j) l := by
  unfold listSwap
  cases hx : l[i]? with
  | none => exact List.Perm.refl l
  | some x =>
    cases hy : l[j]? with
    | none => exact List.Perm.refl l
    | some y => exact set_set_perm l i j x y hx hy

theorem fyLoop_perm (rand : Nat → Nat) :
    ∀ (n : Nat) (l : List CardData), List.Perm (fyLoop rand l n) l := by
  intro n
  induction n with
  | zero => intro l; exact List.Perm.refl l
  | succ i ih =>
    intro l
    exact (ih _).trans (listSwap_perm l (i + 1) (rand (i + 1) % (i + 2)))

theorem getRoundScores_ok_eq (players : List Player) (callerIndex : Nat)
    (joker : Option CardData) (hidx : callerIndex < players.length) :
    getRoundScores players (callerIndex : Int) joker =
      Except.ok (players.map fun p =>
        { playerId := p.id,
          roundScore :=
            if p.id = (players.get ⟨callerIndex, hidx⟩).id then
              settleCase players (players.get ⟨callerIndex, hidx⟩) joker
            else calculateHandValue p.hand joker }) := by
  match players, hidx with
  | p0 :: rest, hidx =>
    have hix : jsIndex (p0 :: rest) (callerIndex : Int) =
        some ((p0 :: rest).get ⟨callerIndex, hidx⟩) := by
      simp [jsIndex, List.getElem?_eq_getElem hidx]
    simp only [getRoundScores, hix, settleCase, List.get_eq_getElem]

theorem find?_by_id (players : List Player)
    (hids : (players.map Player.id).Nodup) :
    ∀ (k : Nat) (hk : k < players.length),
      players.find? (fun p => p.id = (players.get ⟨k, hk⟩).id) =
        some (players.get ⟨k, hk⟩) := by
  induction players with
  | nil => intro k hk; simp at hk
  | cons a t ih =>
    intro k hk
    simp only [List.map_cons, List.nodup_cons] at hids
    cases k with
    | zero => simp [List.find?_cons]
    | succ k' =>
      have hk' : k' < t.length := by simpa using hk
      have hmem : (t.get ⟨k', hk'⟩).id ∈ t.map Player.id :=
        List.mem_map_of_mem Player.id (List.get_mem t k' hk')
      have hne : ¬(a.id = (t.get ⟨k', hk'⟩).id) := by
        intro he; exact hids.1 (he ▸ hmem)
      have hne' : decide (a.id = t[k'].id) = false :=
        decide_eq_false (by simpa using hne)
      simp only [List.get_eq_getElem, List.getElem_cons_succ, List.find?_cons,
        hne']
      simpa using ih hids.2 k' hk'

/-! ## Claim theorems (valuation and shuffle) -/

/-- C9: valuation of an empty hand is 0 for every joker, with no error. -/
theorem calculateHandValue_nil (joker : Option CardData) :
    calculateHandValue [] joker = 0 := by
  cases joker <;> rfl

/-- C2: with no joker the hand value is the sum of the card values; with a
joker every card matching the joker's rank and suit contributes 0 and every
other card its table value.  The function is total by construction. -/
theorem calculateHandValue_sum (hand : List CardData) (j : CardData) :
    calculateHandValue hand none = (hand.map fun c => c.value).sum ∧
      calculateHandValue hand (some j) =
        (hand.map fun c =>
          if c.rank = j.rank ∧ c.suit = j.suit then 0 else c.value).sum := by
  constructor
  · simpa using foldl_add_eq_sum (fun c => c.value) hand 0
  · have h := foldl_add_eq_sum
      (fun c => if c.rank = j.rank ∧ c.suit = j.suit then 0 else c.value) hand 0
    simp only [Nat.zero_add] at h
    rw [calculateHandValue, ← h]
    have hfun : (fun (sum : Nat) (card : CardData) =>
        if card.rank = j.rank ∧ card.suit = j.suit then sum + 0
        else sum + card.value) =
        (fun (s : Nat) (c : CardData) =>
          s + if c.rank = j.rank ∧ c.suit = j.suit then 0 else c.value) := by
      funext s c
      by_cases hc : c.rank = j.rank ∧ c.suit = j.suit <;> simp [hc]
    rw [hfun]

theorem mem_fsrFold (l : List String) :
    ∀ (acc : List String) (r : String),
      r ∈ l.foldl (fun acc r => if r ∈ acc then acc else acc ++ [r]) acc ↔
        r ∈ acc ∨ r ∈ l := by
  induction l with
  | nil => intro acc r; simp
  | cons x t ih =>
    intro acc r
    rw [List.foldl_cons, ih]
    by_cases hx : x ∈ acc
    · rw [if_pos hx]
      constructor
      · intro h; rcases h with h | h
        · exact Or.inl h
        · exact Or.inr (List.mem_cons_of_mem x h)
      · intro h; rcases h with h | h
        · exact Or.inl h
        · rcases List.mem_cons.mp h with rfl | h
          · exact Or.inl hx
          · exact Or.inr h
    · rw [if_neg hx]
      simp only [List.mem_append, List.mem_singleton, List.mem_cons]
      tauto

theorem mem_firstSeenRanks (hand : List CardData) (r : String) :
    r ∈ firstSeenRanks hand ↔ r ∈ hand.map fun c => c.rank := by
  rw [firstSeenRanks, mem_fsrFold]
  simp

theorem firstSeenRanks_append (hand : List CardData) (c : CardData) :
    firstSeenRanks (hand ++ [c]) =
      if c.rank ∈ firstSeenRanks hand then firstSeenRanks hand
      else firstSeenRanks hand ++ [c.rank] := by
  simp only [firstSeenRanks, List.map_append, List.map_cons, List.map_nil,
    List.foldl_append, List.foldl_cons, List.foldl_nil]

/-- The association list `rankCounts` holds, in first-seen rank order, each
rank together with exactly that rank's cards of the hand in hand order. -/
theorem rankCounts_eq (hand : List CardData) :
    rankCounts hand = (firstSeenRanks hand).map fun r =>
      (r, hand.filter fun c => c.rank = r) := by
  induction hand using List.reverseRecOn with
  | nil => rfl
  | append_singleton hand c ih =>
    rw [rankCounts, List.foldl_append, List.foldl_cons, List.foldl_nil,
      ← rankCounts, ih, firstSeenRanks_append]
    by_cases hmem : c.rank ∈ firstSeenRanks hand
    · rw [if_pos hmem, insertCard]
      have hany : ((firstSeenRanks hand).map fun r =>
          (r, hand.filter fun c => c.rank = r)).any
          (fun e => e.1 = c.rank) = true := by
        simp only [List.any_eq_true]
        exact ⟨(c.rank, hand.filter fun x => x.rank = c.rank),
          List.mem_map_of_mem _ hmem, by simp⟩
      rw [if_pos hany, List.map_map]
      apply List.map_congr_left
      intro r _
      by_cases hr : r = c.rank
      · subst hr
        simp [List.filter_append]
      · have : ¬(c.rank = r) := fun h => hr h.symm
        simp [Function.comp, hr, List.filter_append, this]
    · rw [if_neg hmem, insertCard]
      have hany : ((firstSeenRanks hand).map fun r =>
          (r, hand.filter fun c => c.rank = r)).any
          (fun e => e.1 = c.rank) = false := by
        simp only [List.any_eq_false]
        intro e he
        rcases List.mem_map.mp he with ⟨r, hr, rfl⟩
        simp only [decide_eq_true_eq]
        intro hre
        exact hmem (hre ▸ hr)
      rw [if_neg (by simp [hany]), List.map_append]
      congr 1
      · apply List.map_congr_left
        intro r hr
        have hrne : ¬(c.rank = r) := by
          intro hre
          exact hmem (hre ▸ hr)
        simp [List.filter_append, hrne]
      · have hnone : hand.filter (fun x => x.rank = c.rank) = [] := by
          rw [List.filter_eq_nil_iff]
          intro x hx
          simp only [decide_eq_true_eq]
          intro hxe
          exact hmem ((mem_firstSeenRanks hand c.rank).mpr
            (hxe ▸ List.mem_map_of_mem (fun c => c.rank) hx))
        simp [List.filter_append, hnone]

theorem handVals_getD (players : List Player) (joker : Option CardData)
    (k : Nat) (hk : k < players.length) :
    (handVals players joker).getD k 0 =
      calculateHandValue (players.get ⟨k, hk⟩).hand joker := by
  have hk' : k < (handVals players joker).length := by
    simpa [handVals] using hk
  simp [handVals, List.getD, List.getElem?_eq_getElem hk',
    List.getElem?_eq_getElem hk, List.getElem?_map]

theorem settleCase_spec (players : List Player) (joker : Option CardData)
    (hids : (players.map Player.id).Nodup)
    (k : Nat) (hk : k < players.length) :
    settleCase players (players.get ⟨k, hk⟩) joker =
      specCallerScore players k joker := by
  have hfind : (players.map fun p =>
        (p.id, calculateHandValue p.hand joker)).find?
        (fun h => h.1 = (players.get ⟨k, hk⟩).id) =
      some ((players.get ⟨k, hk⟩).id,
        calculateHandValue (players.get ⟨k, hk⟩).hand joker) := by
    rw [List.find?_map]
    have hpred : ((fun (h : Int × Nat) =>
        decide (h.1 = (players.get ⟨k, hk⟩).id)) ∘
        fun (p : Player) => (p.id, calculateHandValue p.hand joker)) =
        fun (p : Player) => decide (p.id = (players.get ⟨k, hk⟩).id) := rfl
    rw [hpred, find?_by_id players hids k hk]
    rfl
  have hvals : (players.map fun p =>
      (p.id, calculateHandValue p.hand joker)).map Prod.snd =
      handVals players joker := by
    simp only [List.map_map]
    rfl
  have hcount : ∀ m : Nat,
      ((players.map fun p => (p.id, calculateHandValue p.hand joker)).filter
        fun h => h.2 = m).length =
      (handVals players joker).countP fun v => v = m := by
    intro m
    rw [← List.countP_eq_length_filter, handVals, List.countP_map,
      List.countP_map]
    rfl
  rw [settleCase, specCallerScore]
  simp only [hfind, hvals, hcount, Option.map_some', Option.getD_some,
    handVals_getD players joker k hk]

/-- C1: on pairwise-distinct ids and a valid caller index the settlement
returns one entry per player in input order; the caller's entry carries the
0/25/50 case score of §4.3 and every other entry that player's own hand
value. -/
theorem getRoundScores_per_player (players : List Player) (callerIndex : Nat)
    (joker : Option CardData) (hidx : callerIndex < players.length)
    (hids : (players.map Player.id).Nodup) :
    ∃ scores : List RoundScore,
      getRoundScores players (callerIndex : Int) joker = Except.ok scores ∧
      scores.map RoundScore.playerId = players.map Player.id ∧
      ∀ (k : Nat) (hk : k < players.length),
        scores[k]? = some
          { playerId := (players.get ⟨k, hk⟩).id,
            roundScore :=
              if k = callerIndex then specCallerScore players callerIndex joker
              else calculateHandValue (players.get ⟨k, hk⟩).hand joker } := by
  refine ⟨_, getRoundScores_ok_eq players callerIndex joker hidx, ?_, ?_⟩
  · simp only [List.map_map]; rfl
  · intro k hk
    rw [List.getElem?_map, List.getElem?_eq_getElem hk, Option.map_some']
    have hmk : k < (players.map Player.id).length := by simpa using hk
    have hmc : callerIndex < (players.map Player.id).length := by
      simpa using hidx
    have hiff : (players.get ⟨k, hk⟩).id = (players.get ⟨callerIndex, hidx⟩).id
        ↔ k = callerIndex := by
      constructor
      · intro he
        have h3 : (players.map Player.id).get ⟨k, hmk⟩ =
            (players.map Player.id).get ⟨callerIndex, hmc⟩ := by
          simp only [List.get_eq_getElem, List.getElem_map]
          simpa [List.get_eq_getElem] using he
        simp only [List.get_eq_getElem] at h3
        exact (hids.getElem_inj_iff).mp h3
      · intro he
        subst he
        rfl
    simp only [List.get_eq_getElem] at hiff ⊢
    by_cases hcase : k = callerIndex
    · subst hcase
      have hsc := settleCase_spec players joker hids k hk
      simp only [List.get_eq_getElem] at hsc
      rw [if_pos rfl, if_pos rfl, hsc]
    · have hne : ¬(players[k].id = players[callerIndex].id) := by
        intro he
        exact hcase (hiff.mp he)
      rw [if_neg hne, if_neg hcase]

/-- C1 witness: three players with distinct ids, caller 0 holding the unique
lowest hand. -/
theorem getRoundScores_per_player_witness :
    (0 : Nat) < 3 ∧
    ∃ scores : List RoundScore,
      getRoundScores
        [⟨1, [⟨"a", "H", "3", 3⟩]⟩, ⟨2, [⟨"b", "H", "9", 9⟩]⟩,
          ⟨3, [⟨"c", "H", "8", 8⟩]⟩] ((0 : Nat) : Int) none =
        Except.ok scores ∧
      scores.map RoundScore.playerId =
        ([⟨1, [⟨"a", "H", "3", 3⟩]⟩, ⟨2, [⟨"b", "H", "9", 9⟩]⟩,
          ⟨3, [⟨"c", "H", "8", 8⟩]⟩] : List Player).map Player.id ∧
      ∀ (k : Nat) (hk : k < ([⟨1, [⟨"a", "H", "3", 3⟩]⟩,
          ⟨2, [⟨"b", "H", "9", 9⟩]⟩,
          ⟨3, [⟨"c", "H", "8", 8⟩]⟩] : List Player).length),
        scores[k]? = some
          { playerId := (([⟨1, [⟨"a", "H", "3", 3⟩]⟩, ⟨2, [⟨"b", "H", "9", 9⟩]⟩,
              ⟨3, [⟨"c", "H", "8", 8⟩]⟩] : List Player).get ⟨k, hk⟩).id,
            roundScore :=
              if k = 0 then
                specCallerScore [⟨1, [⟨"a", "H", "3", 3⟩]⟩,
                  ⟨2, [⟨"b", "H", "9", 9⟩]⟩, ⟨3, [⟨"c", "H", "8", 8⟩]⟩] 0 none
              else calculateHandValue
                (([⟨1, [⟨"a", "H", "3", 3⟩]⟩, ⟨2, [⟨"b", "H", "9", 9⟩]⟩,
                  ⟨3, [⟨"c", "H", "8", 8⟩]⟩] : List Player).get
                    ⟨k, hk⟩).hand none } :=
  ⟨by decide,
    getRoundScores_per_player
      [⟨1, [⟨"a", "H", "3", 3⟩]⟩, ⟨2, [⟨"b", "H", "9", 9⟩]⟩,
        ⟨3, [⟨"c", "H", "8", 8⟩]⟩] 0 none (by decide) (by decide)⟩

/-- C4 counterexample: the claim requires an error for every invalid caller
index "including any callerIndex on an empty players sequence", but on an
empty players list the `find` callback never runs, so `settle` silently
returns an empty result instead of raising. -/
theorem getRoundScores_empty_returns :
    getRoundScores [] 0 none = Except.ok [] := rfl

/-- C4 amended: on a NON-EMPTY players sequence, every caller index that is
not a valid index (negative or past the end) makes `settle` raise an error
rather than return a result; the missing caller is never scored as value 0. -/
theorem getRoundScores_invalid_index_error (players : List Player)
    (callerIndex : Int) (joker : Option CardData)
    (hne : players ≠ [])
    (hbad : callerIndex < 0 ∨ (players.length : Int) ≤ callerIndex) :
    getRoundScores players callerIndex joker =
      Except.error "TypeError: cannot read properties of undefined" := by
  match players, hne with
  | p0 :: rest, _ =>
    have hix : jsIndex (p0 :: rest) callerIndex = none := by
      rcases hbad with hneg | hge
      · simp [jsIndex, not_le.mpr hneg]
      · have hlen : (p0 :: rest).length ≤ callerIndex.toNat := by omega
        simp [jsIndex, List.getElem?_eq_none hlen]
    simp only [getRoundScores, hix]

/-- C4 witness for the amended claim: one player, caller index 5. -/
theorem getRoundScores_invalid_index_error_witness :
    ([⟨1, []⟩] : List Player) ≠ [] ∧
    ((5 : Int) < 0 ∨ (([⟨1, []⟩] : List Player).length : Int) ≤ 5) ∧
    getRoundScores [⟨1, []⟩] 5 none =
      Except.error "TypeError: cannot read properties of undefined" :=
  ⟨by decide, by decide,
    getRoundScores_invalid_index_error [⟨1, []⟩] 5 none (by decide)
      (by decide)⟩

/-- C10: the settlement map keys the caller by id, not by position: every
player whose id equals the caller's receives the caller's 0/25/50 case score
in place of their own hand value, and players with a different id always get
their own hand value. -/
theorem getRoundScores_id_keyed (players : List Player) (callerIndex : Nat)
    (joker : Option CardData) (hidx : callerIndex < players.length)
    (_hdup : ∃ (j : Nat) (hj : j < players.length), j ≠ callerIndex ∧
      (players.get ⟨j, hj⟩).id = (players.get ⟨callerIndex, hidx⟩).id) :
    ∃ (scores : List RoundScore) (cs : Nat),
      getRoundScores players (callerIndex : Int) joker = Except.ok scores ∧
      (cs = 0 ∨ cs = 25 ∨ cs = 50) ∧
      ∀ (k : Nat) (hk : k < players.length),
        ((players.get ⟨k, hk⟩).id = (players.get ⟨callerIndex, hidx⟩).id →
          scores[k]? = some
            { playerId := (players.get ⟨k, hk⟩).id, roundScore := cs }) ∧
        ((players.get ⟨k, hk⟩).id ≠ (players.get ⟨callerIndex, hidx⟩).id →
          scores[k]? = some
            { playerId := (players.get ⟨k, hk⟩).id,
              roundScore :=
                calculateHandValue (players.get ⟨k, hk⟩).hand joker }) := by
  refine ⟨_, settleCase players (players.get ⟨callerIndex, hidx⟩) joker,
    getRoundScores_ok_eq players callerIndex joker hidx, ?_, ?_⟩
  · rw [settleCase]
    split
    · left; rfl
    · split
      · right; left; rfl
      · right; right; rfl
  · intro k hk
    constructor
    · intro he
      rw [List.getElem?_map, List.getElem?_eq_getElem hk, Option.map_some']
      simp only [List.get_eq_getElem] at he ⊢
      rw [if_pos he]
    · intro hne
      rw [List.getElem?_map, List.getElem?_eq_getElem hk, Option.map_some']
      simp only [List.get_eq_getElem] at hne ⊢
      rw [if_neg hne]

/-- C10 witness: player 2 (position 1) shares id 7 with the caller at
position 0; both receive the caller's case score. -/
theorem getRoundScores_id_keyed_witness :
    (0 : Nat) < 2 ∧
    (∃ (j : Nat) (hj : j < ([⟨7, [⟨"a", "H", "9", 9⟩]⟩,
        ⟨7, [⟨"b", "H", "2", 2⟩]⟩] : List Player).length), j ≠ 0 ∧
      (([⟨7, [⟨"a", "H", "9", 9⟩]⟩, ⟨7, [⟨"b", "H", "2", 2⟩]⟩] :
        List Player).get ⟨j, hj⟩).id =
      (([⟨7, [⟨"a", "H", "9", 9⟩]⟩, ⟨7, [⟨"b", "H", "2", 2⟩]⟩] :
        List Player).get ⟨0, by decide⟩).id) ∧
    ∃ (scores : List RoundScore) (cs : Nat),
      getRoundScores [⟨7, [⟨"a", "H", "9", 9⟩]⟩, ⟨7, [⟨"b", "H", "2", 2⟩]⟩]
        ((0 : Nat) : Int) none = Except.ok scores ∧
      (cs = 0 ∨ cs = 25 ∨ cs = 50) ∧
      ∀ (k : Nat) (hk : k < ([⟨7, [⟨"a", "H", "9", 9⟩]⟩,
          ⟨7, [⟨"b", "H", "2", 2⟩]⟩] : List Player).length),
        ((([⟨7, [⟨"a", "H", "9", 9⟩]⟩, ⟨7, [⟨"b", "H", "2", 2⟩]⟩] :
            List Player).get ⟨k, hk⟩).id =
          (([⟨7, [⟨"a", "H", "9", 9⟩]⟩, ⟨7, [⟨"b", "H", "2", 2⟩]⟩] :
            List Player).get ⟨0, by decide⟩).id →
          scores[k]? = some
            { playerId := (([⟨7, [⟨"a", "H", "9", 9⟩]⟩,
                ⟨7, [⟨"b", "H", "2", 2⟩]⟩] : List Player).get ⟨k, hk⟩).id,
              roundScore := cs }) ∧
        ((([⟨7, [⟨"a", "H", "9", 9⟩]⟩, ⟨7, [⟨"b", "H", "2", 2⟩]⟩] :
            List Player).get ⟨k, hk⟩).id ≠
          (([⟨7, [⟨"a", "H", "9", 9⟩]⟩, ⟨7, [⟨"b", "H", "2", 2⟩]⟩] :
            List Player).get ⟨0, by decide⟩).id →
          scores[k]? = some
            { playerId := (([⟨7, [⟨"a", "H", "9", 9⟩]⟩,
                ⟨7, [⟨"b", "H", "2", 2⟩]⟩] : List Player).get ⟨k, hk⟩).id,
              roundScore := calculateHandValue
                ((([⟨7, [⟨"a", "H", "9", 9⟩]⟩, ⟨7, [⟨"b", "H", "2", 2⟩]⟩] :
                  List Player).get ⟨k, hk⟩).hand) none }) :=
  ⟨by decide, ⟨1, by decide, by decide, by decide⟩,
    getRoundScores_id_keyed
      [⟨7, [⟨"a", "H", "9", 9⟩]⟩, ⟨7, [⟨"b", "H", "2", 2⟩]⟩] 0 none (by decide)
      ⟨1, by decide, by decide, by decide⟩⟩

/-- C3: with an untossed turn and some rank held at least twice, the bot
tosses, naming exactly the ids of the first two cards (in hand order) of the
first rank, in first-seen rank order, that has at least two cards. -/
theorem decideBotAction_toss_first_pair (player : Player)
    (joker : Option CardData)
    (hpair : ∃ r, 2 ≤ (player.hand.filter fun c => c.rank = r).length) :
    ∃ r, (firstSeenRanks player.hand).find?
        (fun r => 2 ≤ (player.hand.filter fun c => c.rank = r).length) =
        some r ∧
      decideBotAction player joker false =
        Except.ok (BotAction.TOSS
          (((player.hand.filter fun c => c.rank = r).take 2).map
            fun c => c.id)) := by
  obtain ⟨r0, hr0⟩ := hpair
  have hr0mem : r0 ∈ firstSeenRanks player.hand := by
    have hpos : 0 < (player.hand.filter fun c => c.rank = r0).length := by
      omega
    obtain ⟨x, hx⟩ := List.exists_mem_of_length_pos hpos
    have hx' := List.mem_filter.mp hx
    rw [mem_firstSeenRanks]
    exact List.mem_map.mpr ⟨x, hx'.1, by simpa using hx'.2⟩
  cases hfind : (firstSeenRanks player.hand).find?
      (fun r => 2 ≤ (player.hand.filter fun c => c.rank = r).length) with
  | none =>
    exact absurd (by simpa using hr0)
      (by simpa using List.find?_eq_none.mp hfind r0 hr0mem)
  | some r =>
    refine ⟨r, rfl, ?_⟩
    have hlen : 2 ≤ (player.hand.filter fun c => c.rank = r).length := by
      simpa using List.find?_some hfind
    have htoss : tossAction player.hand =
        some (BotAction.TOSS
          (((player.hand.filter fun c => c.rank = r).take 2).map
            fun c => c.id)) := by
      rw [tossAction, rankCounts_eq, List.find?_map]
      have hpred : ((fun (e : String × List CardData) =>
          decide (2 ≤ e.2.length)) ∘ fun r =>
            (r, player.hand.filter fun c => c.rank = r)) =
          fun r => decide (2 ≤ (player.hand.filter
            fun c => c.rank = r).length) := rfl
      rw [hpred, hfind, Option.map_some']
      rcases hflt : player.hand.filter fun c => c.rank = r with
        _ | ⟨c1, _ | ⟨c2, rest⟩⟩
      · rw [hflt] at hlen; simp at hlen
      · rw [hflt] at hlen; simp at hlen
      · rw [hflt]
        rfl
    rw [decideBotAction]
    simp only [Bool.false_eq_true, if_false, htoss]

/-- C3 witness: two sevens among other cards, `tossedThisTurn = false`. -/
theorem decideBotAction_toss_first_pair_witness :
    (∃ r, 2 ≤ (((⟨1, [⟨"a", "H", "K", 13⟩, ⟨"b", "H", "7", 7⟩,
        ⟨"c", "S", "7", 7⟩]⟩ : Player)).hand.filter
        fun c => c.rank = r).length) ∧
    ∃ r, (firstSeenRanks (⟨1, [⟨"a", "H", "K", 13⟩, ⟨"b", "H", "7", 7⟩,
        ⟨"c", "S", "7", 7⟩]⟩ : Player).hand).find?
        (fun r => 2 ≤ ((⟨1, [⟨"a", "H", "K", 13⟩, ⟨"b", "H", "7", 7⟩,
          ⟨"c", "S", "7", 7⟩]⟩ : Player).hand.filter
          fun c => c.rank = r).length) = some r ∧
      decideBotAction ⟨1, [⟨"a", "H", "K", 13⟩, ⟨"b", "H", "7", 7⟩,
          ⟨"c", "S", "7", 7⟩]⟩ none false =
        Except.ok (BotAction.TOSS
          ((((⟨1, [⟨"a", "H", "K", 13⟩, ⟨"b", "H", "7", 7⟩,
            ⟨"c", "S", "7", 7⟩]⟩ : Player).hand.filter
            fun c => c.rank = r).take 2).map fun c => c.id)) :=
  ⟨⟨"7", by decide⟩,
    decideBotAction_toss_first_pair
      ⟨1, [⟨"a", "H", "K", 13⟩, ⟨"b", "H", "7", 7⟩, ⟨"c", "S", "7", 7⟩]⟩
      none ⟨"7", by decide⟩⟩

/-- When a toss already happened this turn, or no rank of the hand occurs
twice, the toss branch of the bot produces nothing. -/
theorem toss_branch_none (hand : List CardData) (tossed : Bool)
    (hno : tossed = true ∨
      ∀ r ∈ hand.map fun c => c.rank,
        (hand.filter fun c => c.rank = r).length ≤ 1) :
    (if tossed then none else tossAction hand) = (none : Option BotAction) := by
  rcases hno with h | h
  · simp [h]
  · have hta : tossAction hand = none := by
      rw [tossAction, rankCounts_eq, List.find?_map]
      have hpred : ((fun (e : String × List CardData) =>
          decide (2 ≤ e.2.length)) ∘ fun r =>
            (r, hand.filter fun c => c.rank = r)) =
          fun r => decide (2 ≤ (hand.filter
            fun c => c.rank = r).length) := rfl
      have hnone : (firstSeenRanks hand).find?
          (fun r => 2 ≤ (hand.filter
            fun c => c.rank = r).length) = none := by
        rw [List.find?_eq_none]
        intro r hr
        have := h r ((mem_firstSeenRanks hand r).mp hr)
        simp only [decide_eq_true_eq]
        omega
      rw [hpred, hnone, Option.map_none']
    cases tossed <;> simp [hta]

/-- C6: when the toss rule cannot fire (already tossed, or no rank occurs
twice), the bot shows exactly when the hand value is at most 5. -/
theorem decideBotAction_show_iff (player : Player) (joker : Option CardData)
    (tossed : Bool)
    (hno : tossed = true ∨
      ∀ r ∈ player.hand.map fun c => c.rank,
        (player.hand.filter fun c => c.rank = r).length ≤ 1) :
    (decideBotAction player joker tossed = Except.ok BotAction.SHOW ↔
      calculateHandValue player.hand joker ≤ 5) := by
  have htoss := toss_branch_none player.hand tossed hno
  rw [decideBotAction]
  simp only [htoss]
  by_cases hle : calculateHandValue player.hand joker ≤ 5
  · simp [hle]
  · rw [if_neg hle]
    constructor
    · intro hcontra
      exfalso
      cases hhand : player.hand with
      | nil => rw [hhand] at hcontra; simp at hcontra
      | cons h0 t => rw [hhand] at hcontra; simp at hcontra
    · intro hv
      exact absurd hv hle

/-- C6 witness: a pairless hand valued exactly 5 shows. -/
theorem decideBotAction_show_iff_witness :
    (false = true ∨ ∀ r ∈ (⟨1, [⟨"a", "H", "2", 2⟩, ⟨"b", "S", "3", 3⟩]⟩ :
        Player).hand.map fun c => c.rank,
        ((⟨1, [⟨"a", "H", "2", 2⟩, ⟨"b", "S", "3", 3⟩]⟩ :
        Player).hand.filter fun c => c.rank = r).length ≤ 1) ∧
    (decideBotAction ⟨1, [⟨"a", "H", "2", 2⟩, ⟨"b", "S", "3", 3⟩]⟩ none
        false = Except.ok BotAction.SHOW ↔
      calculateHandValue (⟨1, [⟨"a", "H", "2", 2⟩, ⟨"b", "S", "3", 3⟩]⟩ :
        Player).hand none ≤ 5) :=
  ⟨Or.inr (by decide),
    decideBotAction_show_iff ⟨1, [⟨"a", "H", "2", 2⟩, ⟨"b", "S", "3", 3⟩]⟩
      none false (Or.inr (by decide))⟩

theorem effVal_cast (joker : Option CardData) (c : CardData) :
    (if isJoker joker c then (0 : Int) else (c.value : Int)) =
      ((effVal joker c : Nat) : Int) := by
  rw [effVal]
  split <;> simp

theorem le_foldl_max : ∀ (l : List Nat) (a : Nat), a ≤ l.foldl max a := by
  intro l
  induction l with
  | nil => intro a; exact Nat.le_refl a
  | cons x t ih =>
    intro a
    exact le_trans (Nat.le_max_left a x) (ih (max a x))

/-- The discard fold's step function, with the card's effective value written
through `effVal`. -/
theorem discard_fun_eq (joker : Option CardData) :
    (fun (st : CardData × Int) c =>
      let val : Int := if isJoker joker c then 0 else (c.value : Int)
      if val > st.2 then (c, val) else st) =
      (fun (st : CardData × Int) c =>
        if ((effVal joker c : Nat) : Int) > st.2 then
          (c, ((effVal joker c : Nat) : Int)) else st) := by
  funext st c
  show (if (if isJoker joker c then (0 : Int) else (c.value : Int)) > st.2
      then (c, if isJoker joker c then (0 : Int) else (c.value : Int))
      else st) =
    (if ((effVal joker c : Nat) : Int) > st.2 then
      (c, ((effVal joker c : Nat) : Int)) else st)
  rw [effVal_cast]

theorem discard_fold_eq (joker : Option CardData) :
    ∀ (t : List CardData) (b : CardData),
      t.foldl (fun (st : CardData × Int) c =>
        if ((effVal joker c : Nat) : Int) > st.2 then
          (c, ((effVal joker c : Nat) : Int)) else st)
        (b, (effVal joker b : Int)) =
      (firstMaxFrom joker b t,
        (effVal joker (firstMaxFrom joker b t) : Int)) := by
  intro t
  induction t with
  | nil => intro b; rfl
  | cons c t ih =>
    intro b
    rw [List.foldl_cons]
    by_cases h : effVal joker b < effVal joker c
    · have hstep : (if ((effVal joker c : Nat) : Int) >
          ((b, ((effVal joker b : Nat) : Int)) : CardData × Int).2 then
            (c, ((effVal joker c : Nat) : Int))
          else (b, ((effVal joker b : Nat) : Int))) =
          (c, ((effVal joker c : Nat) : Int)) := by
        have hc : ((effVal joker c : Nat) : Int) >
            ((b, ((effVal joker b : Nat) : Int)) : CardData × Int).2 := by
          show ((effVal joker c : Nat) : Int) > ((effVal joker b : Nat) : Int)
          exact_mod_cast h
        rw [if_pos hc]
      rw [hstep, firstMaxFrom, if_pos h]
      exact ih c
    · have hstep : (if ((effVal joker c : Nat) : Int) >
          ((b, ((effVal joker b : Nat) : Int)) : CardData × Int).2 then
            (c, ((effVal joker c : Nat) : Int))
          else (b, ((effVal joker b : Nat) : Int))) =
          (b, ((effVal joker b : Nat) : Int)) := by
        have hc : ¬(((effVal joker c : Nat) : Int) >
            ((b, ((effVal joker b : Nat) : Int)) : CardData × Int).2) := by
          show ¬(((effVal joker c : Nat) : Int) >
            ((effVal joker b : Nat) : Int))
          intro hcon
          exact h (by exact_mod_cast hcon)
        rw [if_neg hc]
      rw [hstep, firstMaxFrom, if_neg h]
      exact ih b

theorem firstMaxFrom_effVal (joker : Option CardData) :
    ∀ (t : List CardData) (b : CardData),
      effVal joker (firstMaxFrom joker b t) =
        (t.map (effVal joker)).foldl max (effVal joker b) := by
  intro t
  induction t with
  | nil => intro b; rfl
  | cons c t ih =>
    intro b
    rw [List.map_cons, List.foldl_cons, firstMaxFrom]
    by_cases h : effVal joker b < effVal joker c
    · rw [if_pos h, Nat.max_eq_right h.le]
      exact ih c
    · rw [if_neg h, Nat.max_eq_left (Nat.not_lt.mp h)]
      exact ih b

theorem firstMaxFrom_find? (joker : Option CardData) :
    ∀ (t : List CardData) (b : CardData),
      (b :: t).find? (fun c => effVal joker c =
          (t.map (effVal joker)).foldl max (effVal joker b)) =
        some (firstMaxFrom joker b t) := by
  intro t
  induction t with
  | nil =>
    intro b
    simp [firstMaxFrom]
  | cons c t ih =>
    intro b
    rw [List.map_cons, List.foldl_cons, firstMaxFrom]
    by_cases h : effVal joker b < effVal joker c
    · rw [if_pos h, Nat.max_eq_right h.le]
      have hble : effVal joker c ≤
          (t.map (effVal joker)).foldl max (effVal joker c) :=
        le_foldl_max _ _
      have hpredb : ¬(effVal joker b =
          (t.map (effVal joker)).foldl max (effVal joker c)) := by omega
      rw [List.find?_cons, decide_eq_false hpredb]
      exact ih c
    · rw [if_neg h, Nat.max_eq_left (Nat.not_lt.mp h)]
      have hcb : effVal joker c ≤ effVal joker b := Nat.not_lt.mp h
      have hbm : effVal joker b ≤
          (t.map (effVal joker)).foldl max (effVal joker b) :=
        le_foldl_max _ _
      by_cases hpredb : effVal joker b =
          (t.map (effVal joker)).foldl max (effVal joker b)
      · have h1 := ih b
        rw [List.find?_cons, decide_eq_true hpredb] at h1
        rw [List.find?_cons, decide_eq_true hpredb]
        exact h1
      · have hpredc : ¬(effVal joker c =
            (t.map (effVal joker)).foldl max (effVal joker b)) := by omega
        have h1 := ih b
        rw [List.find?_cons, decide_eq_false hpredb] at h1
        rw [List.find?_cons, decide_eq_false hpredb, List.find?_cons,
          decide_eq_false hpredc]
        exact h1

/-- C5: when neither the toss rule nor the show rule fires on a non-empty
hand, the bot discards exactly one card: the first card, in hand order, whose
effective value (0 for the joker card) attains the hand's maximum effective
value. -/
theorem decideBotAction_discard_first_max (player : Player)
    (joker : Option CardData) (tossed : Bool)
    (hne : player.hand ≠ [])
    (hno : tossed = true ∨
      ∀ r ∈ player.hand.map fun c => c.rank,
        (player.hand.filter fun c => c.rank = r).length ≤ 1)
    (hval : 5 < calculateHandValue player.hand joker) :
    ∃ c, player.hand.find?
        (fun c => effVal joker c = maxEffVal joker player.hand) = some c ∧
      decideBotAction player joker tossed =
        Except.ok (BotAction.DISCARD [c.id]) := by
  have htoss := toss_branch_none player.hand tossed hno
  match hhand : player.hand, hne with
  | h0 :: t, _ =>
    rw [hhand] at htoss hval
    refine ⟨firstMaxFrom joker h0 t, ?_, ?_⟩
    · have hmax : maxEffVal joker (h0 :: t) =
          (t.map (effVal joker)).foldl max (effVal joker h0) := by
        rw [maxEffVal, List.map_cons, List.foldl_cons,
          Nat.max_eq_right (Nat.zero_le _)]
      rw [hmax]
      exact firstMaxFrom_find? joker t h0
    · rw [decideBotAction, hhand, htoss]
      rw [if_neg (by omega)]
      show Except.ok (BotAction.DISCARD [((h0 :: t).foldl (fun st c =>
          let val : Int := if isJoker joker c then 0 else (c.value : Int)
          if val > st.2 then (c, val) else st)
          (h0, (-1 : Int))).1.id]) =
        Except.ok (BotAction.DISCARD [(firstMaxFrom joker h0 t).id])
      rw [discard_fun_eq joker, List.foldl_cons]
      have hstep : (if ((effVal joker h0 : Nat) : Int) >
          ((h0, (-1 : Int)) : CardData × Int).2 then
            (h0, ((effVal joker h0 : Nat) : Int))
          else (h0, (-1 : Int))) =
          (h0, ((effVal joker h0 : Nat) : Int)) := by
        have hc : ((effVal joker h0 : Nat) : Int) >
            ((h0, (-1 : Int)) : CardData × Int).2 := by
          show ((effVal joker h0 : Nat) : Int) > (-1 : Int)
          omega
        rw [if_pos hc]
      rw [hstep, discard_fold_eq joker t h0]

/-- C5 witness: a pairless hand `[4, 9, 9]` discards the first 9. -/
theorem decideBotAction_discard_first_max_witness :
    ((⟨1, [⟨"a", "H", "4", 4⟩, ⟨"b", "S", "9", 9⟩, ⟨"c", "D", "8", 8⟩]⟩ :
        Player).hand ≠ []) ∧
    (false = true ∨
      ∀ r ∈ (⟨1, [⟨"a", "H", "4", 4⟩, ⟨"b", "S", "9", 9⟩,
          ⟨"c", "D", "8", 8⟩]⟩ : Player).hand.map fun c => c.rank,
        ((⟨1, [⟨"a", "H", "4", 4⟩, ⟨"b", "S", "9", 9⟩,
          ⟨"c", "D", "8", 8⟩]⟩ : Player).hand.filter
          fun c => c.rank = r).length ≤ 1) ∧
    (5 < calculateHandValue (⟨1, [⟨"a", "H", "4", 4⟩, ⟨"b", "S", "9", 9⟩,
      ⟨"c", "D", "8", 8⟩]⟩ : Player).hand none) ∧
    ∃ c, (⟨1, [⟨"a", "H", "4", 4⟩, ⟨"b", "S", "9", 9⟩,
        ⟨"c", "D", "8", 8⟩]⟩ : Player).hand.find?
        (fun c => effVal none c = maxEffVal none
          (⟨1, [⟨"a", "H", "4", 4⟩, ⟨"b", "S", "9", 9⟩,
            ⟨"c", "D", "8", 8⟩]⟩ : Player).hand) = some c ∧
      decideBotAction ⟨1, [⟨"a", "H", "4", 4⟩, ⟨"b", "S", "9", 9⟩,
          ⟨"c", "D", "8", 8⟩]⟩ none false =
        Except.ok (BotAction.DISCARD [c.id]) :=
  ⟨by decide, Or.inr (by decide), by decide,
    decideBotAction_discard_first_max
      ⟨1, [⟨"a", "H", "4", 4⟩, ⟨"b", "S", "9", 9⟩, ⟨"c", "D", "8", 8⟩]⟩
      none false (by decide) (Or.inr (by decide)) (by decide)⟩

/-- C8: the shuffled deck is a permutation of the input (same multiset); the
input itself is untouched (the source copies it with `[...deck]`, and the
embedding is pure), and `shuffleDeck` is by definition the Fisher–Yates loop
over the drawn indices. -/
theorem shuffleDeck_perm (rand : Nat → Nat) (deck : List CardData) :
    List.Perm (shuffleDeck rand deck) deck :=
  fyLoop_perm rand (deck.length - 1) deck


/-! ## Deck construction lemmas -/

theorem toDigitsCore_eq :
    ∀ (fuel n : Nat) (acc : List Char), n < fuel →
      Nat.toDigitsCore 10 fuel n acc = natStrData n ++ acc := by
  intro fuel
  induction fuel with
  | zero => intro n acc h; omega
  | succ f ih =>
    intro n acc h
    rw [Nat.toDigitsCore]
    by_cases h10 : n / 10 = 0
    · rw [if_pos h10]
      have hn : n < 10 := by omega
      rw [natStrData, dif_pos hn, Nat.mod_eq_of_lt hn]
      rfl
    · rw [if_neg h10]
      have hlt : n / 10 < f := by omega
      rw [ih (n / 10) (Nat.digitChar (n % 10) :: acc) hlt]
      rw [show natStrData n = natStrData (n / 10) ++ [Nat.digitChar (n % 10)]
        from by rw [natStrData, dif_neg (by omega)]]
      simp [List.append_assoc]

theorem repr_data_eq (n : Nat) : (Nat.repr n).data = natStrData n := by
  rw [Nat.repr, Nat.toDigits]
  rw [toDigitsCore_eq (n + 1) n [] (Nat.lt_succ_self n)]
  simp [List.asString]

theorem digitChar_val (m : Nat) (h : m < 10) :
    (Nat.digitChar m).toNat - 48 = m := by
  interval_cases m <;> decide

theorem digitChar_ne_dash (m : Nat) (h : m < 10) : Nat.digitChar m ≠ '-' := by
  interval_cases m <;> decide

theorem digitsVal_append (l : List Char) (c : Char) :
    digitsVal (l ++ [c]) = (digitsVal l) * 10 + (c.toNat - 48) := by
  rw [digitsVal, List.foldl_append]
  rfl

theorem digitsVal_natStrData (n : Nat) : digitsVal (natStrData n) = n := by
  induction n using Nat.strong_induction_on with
  | _ n ih =>
    by_cases h : n < 10
    · rw [natStrData, dif_pos h]
      show 0 * 10 + ((Nat.digitChar n).toNat - 48) = n
      rw [digitChar_val n h]
      omega
    · rw [natStrData, dif_neg h, digitsVal_append,
        ih (n / 10) (Nat.div_lt_self (by omega) (by omega)),
        digitChar_val (n % 10) (Nat.mod_lt n (by omega))]
      omega

theorem natStrData_inj {m n : Nat} (h : natStrData m = natStrData n) :
    m = n := by
  rw [← digitsVal_natStrData m, ← digitsVal_natStrData n, h]

theorem natStrData_ne_dash (n : Nat) : '-' ∉ natStrData n := by
  induction n using Nat.strong_induction_on with
  | _ n ih =>
    by_cases h : n < 10
    · rw [natStrData, dif_pos h]
      intro hmem
      exact digitChar_ne_dash n h (List.mem_singleton.mp hmem).symm
    · rw [natStrData, dif_neg h]
      intro hmem
      rcases List.mem_append.mp hmem with hm | hm
      · exact ih (n / 10) (Nat.div_lt_self (by omega) (by omega)) hm
      · exact digitChar_ne_dash (n % 10) (Nat.mod_lt n (by omega))
          (List.mem_singleton.mp hm).symm

theorem append_dash_cancel :
    ∀ (d1 d2 t1 t2 : List Char), '-' ∉ d1 → '-' ∉ d2 →
      d1 ++ '-' :: t1 = d2 ++ '-' :: t2 → d1 = d2 := by
  intro d1
  induction d1 with
  | nil =>
    intro d2 t1 t2 _ h2 heq
    cases d2 with
    | nil => rfl
    | cons c d2' =>
      exfalso
      simp only [List.nil_append, List.cons_append, List.cons.injEq] at heq
      exact h2 (heq.1 ▸ List.mem_cons_self c d2')
  | cons c d1' ih =>
    intro d2 t1 t2 h1 h2 heq
    cases d2 with
    | nil =>
      exfalso
      simp only [List.nil_append, List.cons_append, List.cons.injEq] at heq
      exact h1 (heq.1.symm ▸ List.mem_cons_self c d1')
    | cons c2 d2' =>
      simp only [List.cons_append, List.cons.injEq] at heq
      have := ih d2' t1 t2 (fun hm => h1 (List.mem_cons_of_mem c hm))
        (fun hm => h2 (List.mem_cons_of_mem c2 hm)) heq.2
      rw [heq.1, this]

theorem cardId_inj_counter {n1 n2 : Nat} {r1 s1 r2 s2 : String}
    (h : cardId n1 r1 s1 = cardId n2 r2 s2) : n1 = n2 := by
  have hts : ∀ m : Nat, toString m = Nat.repr m := fun _ => rfl
  have hd := congrArg String.data h
  simp only [cardId, hts, String.data_append, List.append_assoc] at hd
  have hd' := List.append_cancel_left hd
  simp only [repr_data_eq] at hd'
  have hsplit : natStrData n1 ++ '-' ::
      (r1.data ++ '-' :: s1.data) = natStrData n2 ++ '-' ::
      (r2.data ++ '-' :: s2.data) := by
    simpa using hd'
  exact natStrData_inj (append_dash_cancel _ _ _ _
    (natStrData_ne_dash n1) (natStrData_ne_dash n2) hsplit)

theorem buildRow_length (rv : String → Nat) (s : String) :
    ∀ (rs : List String) (n : Nat), (buildRow rv s rs n).length = rs.length := by
  intro rs
  induction rs with
  | nil => intro n; rfl
  | cons r rs ih => intro n; simp [buildRow, ih]

theorem buildRows_length (ranks : List String) (rv : String → Nat) :
    ∀ (ss : List String) (n : Nat),
      (buildRows ranks rv ss n).length = ss.length * ranks.length := by
  intro ss
  induction ss with
  | nil => intro n; simp [buildRows]
  | cons s ss ih =>
    intro n
    simp [buildRows, buildRow_length, ih]
    ring

theorem mem_buildRow (rv : String → Nat) (s : String) :
    ∀ (rs : List String) (n : Nat) (c : CardData), c ∈ buildRow rv s rs n →
      c.suit = s ∧ c.rank ∈ rs ∧ c.value = rv c.rank ∧
        ∃ m, n ≤ m ∧ m < n + rs.length ∧ c.id = cardId m c.rank c.suit := by
  intro rs
  induction rs with
  | nil => intro n c hc; simp [buildRow] at hc
  | cons r rs ih =>
    intro n c hc
    rcases List.mem_cons.mp hc with rfl | hc
    · refine ⟨rfl, List.mem_cons_self r rs, rfl, n, Nat.le_refl n, by simp, rfl⟩
    · obtain ⟨hs, hr, hv, m, hm1, hm2, hid⟩ := ih (n + 1) c hc
      exact ⟨hs, List.mem_cons_of_mem r hr, hv, m, by omega,
        by simp only [List.length_cons]; omega, hid⟩

theorem mem_buildRows (ranks : List String) (rv : String → Nat) :
    ∀ (ss : List String) (n : Nat) (c : CardData), c ∈ buildRows ranks rv ss n →
      c.suit ∈ ss ∧ c.rank ∈ ranks ∧ c.value = rv c.rank ∧
        ∃ m, n ≤ m ∧ m < n + ss.length * ranks.length ∧
          c.id = cardId m c.rank c.suit := by
  intro ss
  induction ss with
  | nil => intro n c hc; simp [buildRows] at hc
  | cons s ss ih =>
    intro n c hc
    rcases List.mem_append.mp hc with hc | hc
    · obtain ⟨hs, hr, hv, m, hm1, hm2, hid⟩ := mem_buildRow rv s ranks n c hc
      refine ⟨hs ▸ List.mem_cons_self s ss, hr, hv, m, hm1, ?_, hid⟩
      simp only [List.length_cons]
      have : ss.length * ranks.length + ranks.length =
          (ss.length + 1) * ranks.length := by ring
      omega
    · obtain ⟨hs, hr, hv, m, hm1, hm2, hid⟩ := ih (n + ranks.length) c hc
      refine ⟨List.mem_cons_of_mem s hs, hr, hv, m, by omega, ?_, hid⟩
      simp only [List.length_cons]
      have : (ss.length + 1) * ranks.length =
          ss.length * ranks.length + ranks.length := by ring
      omega

theorem buildRow_ids_nodup (rv : String → Nat) (s : String) :
    ∀ (rs : List String) (n : Nat),
      ((buildRow rv s rs n).map (fun c => c.id)).Nodup := by
  intro rs
  induction rs with
  | nil => intro n; simp [buildRow]
  | cons r rs ih =>
    intro n
    simp only [buildRow, List.map_cons, List.nodup_cons]
    refine ⟨?_, ih (n + 1)⟩
    intro hmem
    rcases List.mem_map.mp hmem with ⟨c, hc, hid⟩
    obtain ⟨_, _, _, m, hm1, _, hid'⟩ := mem_buildRow rv s rs (n + 1) c hc
    have := cardId_inj_counter (hid' ▸ hid)
    omega

theorem buildRows_ids_nodup (ranks : List String) (rv : String → Nat) :
    ∀ (ss : List String) (n : Nat),
      ((buildRows ranks rv ss n).map (fun c => c.id)).Nodup := by
  intro ss
  induction ss with
  | nil => intro n; simp [buildRows]
  | cons s ss ih =>
    intro n
    simp only [buildRows, List.map_append]
    rw [List.nodup_append]
    refine ⟨buildRow_ids_nodup rv s ranks n, ih (n + ranks.length), ?_⟩
    intro a ha ha'
    rcases List.mem_map.mp ha with ⟨c, hc, rfl⟩
    rcases List.mem_map.mp ha' with ⟨c', hc', hid⟩
    obtain ⟨_, _, _, m, hm1, hm2, hid1⟩ := mem_buildRow rv s ranks n c hc
    obtain ⟨_, _, _, m', hm1', _, hid2⟩ :=
      mem_buildRows ranks rv ss (n + ranks.length) c' hc'
    have : m' = m := cardId_inj_counter (hid2 ▸ hid1 ▸ hid)
    omega

theorem countP_eq_one_of_nodup_mem {l : List String} {a : String}
    (hndp : l.Nodup) (ha : a ∈ l) :
    l.countP (fun x => x = a) = 1 := by
  induction l with
  | nil => simp at ha
  | cons b t ih =>
    rw [List.nodup_cons] at hndp
    rw [List.countP_cons]
    rcases List.mem_cons.mp ha with rfl | hat
    · have hz : t.countP (fun x => x = a) = 0 := by
        rw [List.countP_eq_zero]
        intro x hx
        simp only [decide_eq_true_eq]
        intro hxa
        exact hndp.1 (hxa ▸ hx)
      simp [hz]
    · have hba : ¬(b = a) := fun hba => hndp.1 (hba ▸ hat)
      simp only [decide_eq_true_eq, if_neg hba, Nat.add_zero]
      exact ih hndp.2 hat

theorem buildRow_filter_length (rv : String → Nat) (sRow s r : String) :
    ∀ (rs : List String) (n : Nat),
      ((buildRow rv sRow rs n).filter
        (fun c => decide (c.suit = s ∧ c.rank = r))).length =
      if sRow = s then rs.countP (fun x => x = r) else 0 := by
  intro rs
  induction rs with
  | nil => intro n; simp [buildRow]
  | cons r' rs ih =>
    intro n
    simp only [buildRow, List.filter_cons]
    by_cases hs : sRow = s
    · by_cases hr : r' = r
      · rw [if_pos (by simp [hs, hr]), List.length_cons, ih n.succ,
          List.countP_cons, if_pos hs]
        simp [hr, hs]
      · rw [if_neg (by simp [hr]), ih n.succ, if_pos hs, if_pos hs,
          List.countP_cons]
        simp [hr]
    · rw [if_neg (by simp [hs]), ih (n + 1), if_neg hs, if_neg hs]

theorem buildRows_filter_length (ranks : List String) (rv : String → Nat)
    (s r : String) :
    ∀ (ss : List String) (n : Nat),
      ((buildRows ranks rv ss n).filter
        (fun c => decide (c.suit = s ∧ c.rank = r))).length =
      (ss.countP (fun x => x = s)) * (ranks.countP (fun x => x = r)) := by
  intro ss
  induction ss with
  | nil => intro n; simp [buildRows]
  | cons s' ss ih =>
    intro n
    simp only [buildRows, List.filter_append, List.length_append]
    rw [buildRow_filter_length rv s' s r ranks n, ih (n + ranks.length),
      List.countP_cons]
    by_cases hs : s' = s
    · simp only [if_pos hs, decide_eq_true_eq, if_pos hs]
      ring
    · simp only [if_neg hs, decide_eq_true_eq, if_neg hs]
      ring

/-- C7: for pairwise-distinct suit and rank enumerations, the shuffled deck
always has exactly `|suits| × |ranks|` cards, contains each (suit, rank)
combination exactly once, has pairwise-distinct card ids, and every card's
value is the rank-table lookup for its rank. -/
theorem createDeck_complete (suits ranks : List String)
    (rankValues : String → Nat) (rand : Nat → Nat)
    (hs : suits.Nodup) (hr : ranks.Nodup) :
    (createDeck suits ranks rankValues rand).length =
        suits.length * ranks.length ∧
    (∀ s ∈ suits, ∀ r ∈ ranks,
      ((createDeck suits ranks rankValues rand).filter
        (fun c => c.suit = s ∧ c.rank = r)).length = 1) ∧
    ((createDeck suits ranks rankValues rand).map (fun c => c.id)).Nodup ∧
    ∀ c ∈ createDeck suits ranks rankValues rand,
      c.value = rankValues c.rank := by
  have hperm : List.Perm (createDeck suits ranks rankValues rand)
      (buildRows ranks rankValues suits 0) :=
    fyLoop_perm rand _ _
  refine ⟨?_, ?_, ?_, ?_⟩
  · rw [hperm.length_eq, buildRows_length]
  · intro s hsm r hrm
    rw [(hperm.filter _).length_eq,
      buildRows_filter_length ranks rankValues s r suits 0,
      countP_eq_one_of_nodup_mem hs hsm, countP_eq_one_of_nodup_mem hr hrm]
  · exact ((hperm.map fun c => c.id).nodup_iff).mpr
      (buildRows_ids_nodup ranks rankValues suits 0)
  · intro c hc
    obtain ⟨_, _, hv, _⟩ :=
      mem_buildRows ranks rankValues suits 0 c (hperm.mem_iff.mp hc)
    exact hv

/-- C7 witness: a concrete 2×2 suit/rank enumeration with a fixed draw. -/
theorem createDeck_complete_witness :
    (["H", "S"] : List String).Nodup ∧ (["A", "2"] : List String).Nodup ∧
    ((createDeck ["H", "S"] ["A", "2"] (fun _ => 1) (fun _ => 0)).length =
        (["H", "S"] : List String).length * (["A", "2"] : List String).length ∧
      (∀ s ∈ (["H", "S"] : List String), ∀ r ∈ (["A", "2"] : List String),
        ((createDeck ["H", "S"] ["A", "2"] (fun _ => 1) (fun _ => 0)).filter
          (fun c => c.suit = s ∧ c.rank = r)).length = 1) ∧
      ((createDeck ["H", "S"] ["A", "2"] (fun _ => 1) (fun _ => 0)).map
        (fun c => c.id)).Nodup ∧
      ∀ c ∈ createDeck ["H", "S"] ["A", "2"] (fun _ => 1) (fun _ => 0),
        c.value = 1) :=
  ⟨by decide, by decide,
    createDeck_complete ["H", "S"] ["A", "2"] (fun _ => 1) (fun _ => 0)
      (by decide) (by decide)⟩
